import Mathlib

/-!
Verification of the billing-engine loan ledger and registry.

The Go sources use `github.com/shopspring/decimal` for money arithmetic.
A shopspring decimal is an arbitrary-precision decimal number; `Add`, `Sub`
and `Mul` are exact, and `Equal` / `IsZero` / `IsNegative` compare values,
so decimal values are modelled by their rational value (`ℚ`).  `Div` is
`DivRound` to `DivisionPrecision = 16` decimal places, rounding half away
from zero; it is modelled exactly below.
-/

namespace Billing

/-- Number of decimal places kept by shopspring `Div` (`DivisionPrecision`). -/
def decimalScale : ℕ := 16

/-- Rounding to the nearest integer, half away from zero. -/
def roundHalfAway (q : ℚ) : ℤ :=
  if 0 ≤ q then ⌊q + 1/2⌋ else -⌊-q + 1/2⌋

/-- Shopspring `a.Div(b)`: the quotient rounded to `decimalScale` decimal
places, half away from zero. -/
def decimalDiv (a b : ℚ) : ℚ :=
  (roundHalfAway (a / b * 10 ^ decimalScale) : ℚ) / 10 ^ decimalScale

/-- `domain.Money` (money.go): a wrapper around a decimal amount. -/
structure Money where
  amount : ℚ
deriving DecidableEq, Repr

/-- `domain.NewMoney` (money.go). -/
def NewMoney (n : ℤ) : Money := ⟨(n : ℚ)⟩

/-- `Money.IsZero` (money.go). -/
def Money.IsZero (m : Money) : Bool := decide (m.amount = 0)

/-- `Money.IsNegative` (money.go). -/
def Money.IsNegative (m : Money) : Bool := decide (m.amount < 0)

/-- `Money.Equals` (money.go); decimal `Equal` compares values. -/
def Money.Equals (m other : Money) : Bool := decide (m.amount = other.amount)

/-- `Money.Add` (money.go). -/
def Money.Add (m other : Money) : Money := ⟨m.amount + other.amount⟩

/-- `Money.Subtract` (money.go). -/
def Money.Subtract (m other : Money) : Money := ⟨m.amount - other.amount⟩

/-- `Money.Multiply` (money.go): multiplication by a decimal is exact. -/
def Money.Multiply (m : Money) (multiplier : ℚ) : Money := ⟨m.amount * multiplier⟩

/-- `domain.LoanDurationWeeks` (loan.go): the fixed loan duration. -/
def LoanDurationWeeks : ℕ := 50

/-- `domain.DelinquencyThreshold` (loan.go). -/
def DelinquencyThreshold : ℤ := 2

/-- `domain.ScheduleEntry` (loan.go).  Week numbers are Go `int`s, so `ℤ`. -/
structure ScheduleEntry where
  WeekNumber : ℤ
  Amount : Money
  IsPaid : Bool
deriving DecidableEq, Repr

/-- `domain.Payment` (loan.go).  The wall-clock `PaidAt time.Time` stamp,
which no claim refers to, is omitted from the model. -/
structure Payment where
  WeekNumber : ℤ
  Amount : Money
deriving DecidableEq, Repr

/-- `domain.Loan` (loan.go). -/
structure Loan where
  ID : String
  BorrowerID : String
  Principal : Money
  InterestRate : ℚ
  TotalAmount : Money
  WeeklyPayment : Money
  Schedule : List ScheduleEntry
  Payments : List Payment
  CurrentWeek : ℤ
deriving DecidableEq, Repr

/-- `domain.NewLoan` (loan.go). -/
def NewLoan (id borrowerID : String) (principal : Money)
    (annualInterestRate : ℚ) : Loan :=
  let interest := principal.Multiply annualInterestRate
  let totalAmount := principal.Add interest
  let weeklyPayment := totalAmount.Multiply (decimalDiv 1 (LoanDurationWeeks : ℚ))
  let schedule := (List.range LoanDurationWeeks).map fun i =>
    { WeekNumber := (i : ℤ) + 1, Amount := weeklyPayment, IsPaid := false }
  { ID := id
    BorrowerID := borrowerID
    Principal := principal
    InterestRate := annualInterestRate
    TotalAmount := totalAmount
    WeeklyPayment := weeklyPayment
    Schedule := schedule
    Payments := []
    CurrentWeek := 1 }

/-- `Loan.GetOutstanding` (loan.go): total amount minus the sum of all
recorded payments. -/
def Loan.GetOutstanding (l : Loan) : Money :=
  let totalPaid := l.Payments.foldl (fun acc payment => acc.Add payment.Amount) (NewMoney 0)
  l.TotalAmount.Subtract totalPaid

/-- `Loan.IsDelinquent` (loan.go): the loop computing `lastPaidWeek` is the
fold below; delinquent iff at least `DelinquencyThreshold` weeks behind. -/
def Loan.IsDelinquent (l : Loan) : Bool :=
  let lastPaidWeek := l.Schedule.foldl
    (fun lastPaidWeek entry =>
      if entry.IsPaid ∧ lastPaidWeek < entry.WeekNumber then entry.WeekNumber
      else lastPaidWeek) 0
  decide (DelinquencyThreshold ≤ l.CurrentWeek - lastPaidWeek)

/-- `Loan.SetCurrentWeek` (loan.go): out-of-range values are ignored. -/
def Loan.SetCurrentWeek (l : Loan) (week : ℤ) : Loan :=
  if 1 ≤ week ∧ week ≤ (LoanDurationWeeks : ℤ) then { l with CurrentWeek := week }
  else l

/-- The error values of errors.go relevant to `MakePayment`. -/
inductive PaymentError where
  | NegativeAmount
  | InvalidPaymentAmount
  | LoanFullyPaid
  | InvalidWeekNumber
  | WeekAlreadyPaid
  | PaymentOutOfSequence
deriving DecidableEq, Repr

/-- Default used to totalise schedule indexing (Go panics on an index out of
range; for loans whose schedule has the full term length — the only states
the theorems below consider — the index is always in range after the
week-number check, so the default is never read). -/
def defaultScheduleEntry : ScheduleEntry :=
  { WeekNumber := 0, Amount := NewMoney 0, IsPaid := false }

/-- `l.Schedule[scheduleIndex].IsPaid = true` of loan.go, as a list update. -/
def markPaid : List ScheduleEntry → ℕ → List ScheduleEntry
  | [], _ => []
  | entry :: rest, 0 => { entry with IsPaid := true } :: rest
  | entry :: rest, n + 1 => entry :: markPaid rest n

/-- The loop of `findFirstUnpaidWeek` (loan.go): the week number of the
first unpaid entry, `0` if all are paid. -/
def firstUnpaidWeekOf : List ScheduleEntry → ℤ
  | [] => 0
  | entry :: rest => if !entry.IsPaid then entry.WeekNumber else firstUnpaidWeekOf rest

/-- `Loan.findFirstUnpaidWeek` (loan.go). -/
def Loan.findFirstUnpaidWeek (l : Loan) : ℤ :=
  firstUnpaidWeekOf l.Schedule

/-- `Loan.MakePayment` (loan.go).  The Go method mutates its receiver and
returns an error; the model returns the receiver after the call together
with the returned error.  Every early `return err` leaves the receiver as
it was at entry. -/
def Loan.MakePayment (l : Loan) (amount : Money) (weekNumber : ℤ) :
    Loan × Option PaymentError :=
  if amount.IsNegative then (l, some .NegativeAmount)
  else if !(amount.Equals l.WeeklyPayment) then (l, some .InvalidPaymentAmount)
  else if (l.GetOutstanding).IsZero then (l, some .LoanFullyPaid)
  else if weekNumber < 1 ∨ (LoanDurationWeeks : ℤ) < weekNumber then
    (l, some .InvalidWeekNumber)
  else
    let scheduleIndex := (weekNumber - 1).toNat
    if (l.Schedule.getD scheduleIndex defaultScheduleEntry).IsPaid then
      (l, some .WeekAlreadyPaid)
    else if weekNumber ≠ l.findFirstUnpaidWeek then (l, some .PaymentOutOfSequence)
    else
      ({ l with
          Payments := l.Payments ++ [{ WeekNumber := weekNumber, Amount := amount }]
          Schedule := markPaid l.Schedule scheduleIndex }, none)

/-- `Loan.GetNextDueWeek` (loan.go). -/
def Loan.GetNextDueWeek (l : Loan) : ℤ :=
  l.findFirstUnpaidWeek

/-- `Loan.IsClosed` (loan.go). -/
def Loan.IsClosed (l : Loan) : Bool :=
  l.GetOutstanding.IsZero

/-- The registry-level error values of billing_service.go. -/
inductive ServiceError where
  | LoanNotFound
  | DuplicateLoan
  | PaymentFailed (e : PaymentError)
deriving DecidableEq, Repr

/-- `service.BillingService` (billing_service.go): the `map[string]*Loan`
is modelled as an association list with map lookup/store semantics. -/
structure BillingService where
  loans : List (String × Loan)
deriving DecidableEq, Repr

/-- Go map read `s.loans[loanID]`. -/
def lookupLoan : List (String × Loan) → String → Option Loan
  | [], _ => none
  | (k, v) :: rest, id => if k = id then some v else lookupLoan rest id

/-- Go map write `s.loans[loanID] = loan`: replace if present, add if not. -/
def storeLoan : List (String × Loan) → String → Loan → List (String × Loan)
  | [], id, loan => [(id, loan)]
  | (k, v) :: rest, id, loan =>
    if k = id then (id, loan) :: rest else (k, v) :: storeLoan rest id loan

/-- `BillingService.CreateLoan` (billing_service.go): rejects duplicate
identifiers; otherwise creates a loan at the fixed annual rate.
`decimal.NewFromFloat(0.10)` yields exactly `0.10`. -/
def BillingService.CreateLoan (s : BillingService) (loanID borrowerID : String)
    (principal : Money) : BillingService × Except ServiceError Loan :=
  match lookupLoan s.loans loanID with
  | some _ => (s, .error .DuplicateLoan)
  | none =>
    let annualInterestRate : ℚ := 1/10
    let loan := NewLoan loanID borrowerID principal annualInterestRate
    ({ loans := storeLoan s.loans loanID loan }, .ok loan)

/-- `BillingService.MakeNextPayment` (billing_service.go): resolve the loan,
take its next due week, fail with `LoanFullyPaid` on the `0` sentinel, else
delegate to `Loan.MakePayment`.  Domain errors propagate verbatim
(wrapped in `ServiceError.PaymentFailed` to keep the taxonomy flat). -/
def BillingService.MakeNextPayment (s : BillingService) (loanID : String)
    (amount : Money) : BillingService × Option ServiceError :=
  match lookupLoan s.loans loanID with
  | none => (s, some .LoanNotFound)
  | some loan =>
    let nextWeek := loan.GetNextDueWeek
    if nextWeek = 0 then (s, some (.PaymentFailed .LoanFullyPaid))
    else
      match loan.MakePayment amount nextWeek with
      | (loan2, some e) =>
        ({ loans := storeLoan s.loans loanID loan2 }, some (.PaymentFailed e))
      | (loan2, none) =>
        ({ loans := storeLoan s.loans loanID loan2 }, none)

/-- The states of a `Loan` reachable from construction by the ledger's
mutating operations. -/
inductive Reachable : Loan → Prop where
  | construct (id borrowerID : String) (principal : Money) (rate : ℚ) :
      Reachable (NewLoan id borrowerID principal rate)
  | pay {l l2 : Loan} (amount : Money) (weekNumber : ℤ) :
      Reachable l → l.MakePayment amount weekNumber = (l2, none) → Reachable l2
  | setWeek {l : Loan} (week : ℤ) :
      Reachable l → Reachable (l.SetCurrentWeek week)

/-- The structural invariant maintained by every reachable loan state:
the schedule is the full term in week order with uniform amounts, the
payments are the gap-free prefix `1..n` with uniform amounts, exactly the
first `n` schedule entries are paid, and the total is the term times the
weekly payment. -/
structure LoanInv (l : Loan) : Prop where
  schedLen : l.Schedule.length = LoanDurationWeeks
  schedWeek : ∀ i (h : i < l.Schedule.length),
    (l.Schedule.get ⟨i, h⟩).WeekNumber = (i : ℤ) + 1
  schedAmt : ∀ e ∈ l.Schedule, e.Amount = l.WeeklyPayment
  payWeeks : l.Payments.map Payment.WeekNumber =
    (List.range l.Payments.length).map fun i : ℕ => (i : ℤ) + 1
  payAmt : ∀ p ∈ l.Payments, p.Amount = l.WeeklyPayment
  paidIff : ∀ i (h : i < l.Schedule.length),
    ((l.Schedule.get ⟨i, h⟩).IsPaid = true ↔ i < l.Payments.length)
  payLe : l.Payments.length ≤ LoanDurationWeeks
  total : l.TotalAmount.amount = (LoanDurationWeeks : ℚ) * l.WeeklyPayment.amount

/-- The concrete loan of the spec's worked examples: principal 5,000,000 at
the fixed 10% annual rate (weekly payment 110,000). -/
def demoLoan : Loan :=
  NewLoan "L1" "B1" (NewMoney 5000000) (1/10)

/-- The spec's definition of `lastPaidWeek`: the maximum week number among
paid schedule entries, `0` if none is paid. -/
def maxPaidWeek (l : Loan) : ℤ :=
  (((l.Schedule.filter fun e => e.IsPaid).map ScheduleEntry.WeekNumber).max?).getD 0

end Billing

namespace Billing

/-! ### Arithmetic of the decimal model -/

/-- The only division the code performs, `1 / termWeeks`, is exact at the
16-place division precision. -/
theorem decimalDiv_one_term : decimalDiv 1 (LoanDurationWeeks : ℚ) = 1/50 := by
  norm_num [decimalDiv, roundHalfAway, decimalScale, LoanDurationWeeks]

theorem Money.isZero_iff (m : Money) : m.IsZero = true ↔ m.amount = 0 := by
  simp [Money.IsZero]

theorem Money.isNegative_iff (m : Money) : m.IsNegative = true ↔ m.amount < 0 := by
  simp [Money.IsNegative]

theorem Money.equals_iff (m other : Money) : m.Equals other = true ↔ m = other := by
  cases m; cases other; simp [Money.Equals]

/-! ### Outstanding balance -/

theorem foldl_add_amount (ps : List Payment) (m : Money) :
    (ps.foldl (fun acc payment => acc.Add payment.Amount) m).amount
      = m.amount + (ps.map fun p => p.Amount.amount).sum := by
  induction ps generalizing m with
  | nil => simp
  | cons p ps ih =>
    rw [List.foldl_cons, ih]
    simp [Money.Add]
    ring

theorem getOutstanding_amount (l : Loan) :
    (l.GetOutstanding).amount
      = l.TotalAmount.amount - (l.Payments.map fun p => p.Amount.amount).sum := by
  simp [Loan.GetOutstanding, Money.Subtract, foldl_add_amount, NewMoney]

theorem sum_amounts_const {ps : List Payment} {w : Money}
    (h : ∀ p ∈ ps, p.Amount = w) :
    (ps.map fun p => p.Amount.amount).sum = ps.length * w.amount := by
  induction ps with
  | nil => simp
  | cons p ps ih =>
    rw [List.map_cons, List.sum_cons, ih fun q hq => h q (List.mem_cons_of_mem _ hq),
      h p (List.mem_cons_self _ _)]
    simp [List.length_cons]
    ring

theorem LoanInv.getOutstanding_eq {l : Loan} (hinv : LoanInv l) :
    (l.GetOutstanding).amount
      = ((LoanDurationWeeks : ℚ) - l.Payments.length) * l.WeeklyPayment.amount := by
  rw [getOutstanding_amount, sum_amounts_const hinv.payAmt, hinv.total]
  ring

theorem LoanInv.outstanding_isZero_iff {l : Loan} (hinv : LoanInv l) :
    l.GetOutstanding.IsZero = true
      ↔ (l.WeeklyPayment.amount = 0 ∨ l.Payments.length = LoanDurationWeeks) := by
  rw [Money.isZero_iff, hinv.getOutstanding_eq]
  constructor
  · intro h
    rcases mul_eq_zero.mp h with h | h
    · right
      have hq : (l.Payments.length : ℚ) = (LoanDurationWeeks : ℚ) := by linarith
      exact_mod_cast hq
    · left; exact h
  · rintro (h | h) <;> simp [h]

/-! ### Schedule updates and the first unpaid week -/

theorem markPaid_length (s : List ScheduleEntry) (i : ℕ) :
    (markPaid s i).length = s.length := by
  induction s generalizing i with
  | nil => rfl
  | cons e rest ih =>
    cases i with
    | zero => rfl
    | succ n => simp [markPaid, ih]

theorem markPaid_getD (s : List ScheduleEntry) (i j : ℕ) (d : ScheduleEntry) :
    (markPaid s i).getD j d
      = if j = i ∧ j < s.length then { s.getD j d with IsPaid := true }
        else s.getD j d := by
  induction s generalizing i j with
  | nil => simp [markPaid]
  | cons e rest ih =>
    cases i with
    | zero =>
      cases j with
      | zero => simp [markPaid]
      | succ m => simp [markPaid]
    | succ n =>
      cases j with
      | zero => simp [markPaid]
      | succ m => simpa [markPaid, Nat.succ_lt_succ_iff] using ih n m

theorem getD_of_lt {α : Type} (s : List α) {i : ℕ} (h : i < s.length) (d : α) :
    s.getD i d = s.get ⟨i, h⟩ := by
  rw [List.getD_eq_getElem?_getD, List.getElem?_eq_getElem h]
  simp [List.get_eq_getElem]

theorem firstUnpaidWeekOf_eq (s : List ScheduleEntry) (k : ℤ) (n : ℕ)
    (hw : ∀ i (h : i < s.length), (s.get ⟨i, h⟩).WeekNumber = k + i)
    (hp : ∀ i (h : i < s.length), ((s.get ⟨i, h⟩).IsPaid = true ↔ i < n)) :
    firstUnpaidWeekOf s = if s.length ≤ n then 0 else k + n := by
  induction s generalizing k n with
  | nil => simp [firstUnpaidWeekOf]
  | cons e rest ih =>
    have he : e.IsPaid = true ↔ 0 < n := by
      simpa [List.get_eq_getElem, List.getElem_cons_zero] using hp 0 (Nat.succ_pos rest.length)
    have hwe : e.WeekNumber = k := by
      simpa [List.get_eq_getElem, List.getElem_cons_zero] using hw 0 (Nat.succ_pos rest.length)
    cases n with
    | zero =>
      have hef : e.IsPaid = false := by
        cases hb : e.IsPaid
        · rfl
        · exact absurd (he.mp hb) (lt_irrefl 0)
      simp [firstUnpaidWeekOf, hef, hwe]
    | succ m =>
      have hpaid : e.IsPaid = true := he.mpr (Nat.succ_pos m)
      have hw2 : ∀ i (h : i < rest.length), (rest.get ⟨i, h⟩).WeekNumber = (k + 1) + i := by
        intro i h
        have h2 := hw (i + 1) (Nat.succ_lt_succ h)
        simp only [List.get_eq_getElem, List.getElem_cons_succ] at h2 ⊢
        rw [h2]
        push_cast
        ring
      have hp2 : ∀ i (h : i < rest.length), ((rest.get ⟨i, h⟩).IsPaid = true ↔ i < m) := by
        intro i h
        have h2 := hp (i + 1) (Nat.succ_lt_succ h)
        simp only [List.get_eq_getElem, List.getElem_cons_succ] at h2 ⊢
        rw [h2]
        omega
      rw [show firstUnpaidWeekOf (e :: rest) = firstUnpaidWeekOf rest by
        simp [firstUnpaidWeekOf, hpaid]]
      rw [ih (k + 1) m hw2 hp2]
      have hlen : rest.length + 1 ≤ m + 1 ↔ rest.length ≤ m := Nat.succ_le_succ_iff
      by_cases hc : rest.length ≤ m
      · simp [hc, List.length_cons, hlen.mpr hc]
      · have : ¬ (e :: rest).length ≤ m + 1 := by simp [List.length_cons]; omega
        simp [hc, this]
        ring

theorem LoanInv.firstUnpaid {l : Loan} (hinv : LoanInv l) :
    l.findFirstUnpaidWeek
      = if l.Payments.length = LoanDurationWeeks then 0
        else (l.Payments.length : ℤ) + 1 := by
  have hchar := firstUnpaidWeekOf_eq l.Schedule 1 l.Payments.length
    (by intro i h; rw [hinv.schedWeek i h]; ring) hinv.paidIff
  rw [Loan.findFirstUnpaidWeek, hchar, hinv.schedLen]
  have hle := hinv.payLe
  by_cases h : l.Payments.length = LoanDurationWeeks
  · simp [h]
  · have h2 : ¬ (LoanDurationWeeks ≤ l.Payments.length) := by omega
    simp [h, h2]
    ring


/-! ### MakePayment: case analysis -/

theorem makePayment_fst_of_error {l l2 : Loan} {a : Money} {w : ℤ} {e : PaymentError}
    (h : l.MakePayment a w = (l2, some e)) : l2 = l := by
  simp only [Loan.MakePayment] at h
  split_ifs at h <;> simp_all

theorem makePayment_ok_elim {l l2 : Loan} {a : Money} {w : ℤ}
    (h : l.MakePayment a w = (l2, none)) :
    a.IsNegative = false ∧ a.Equals l.WeeklyPayment = true ∧
    l.GetOutstanding.IsZero = false ∧ 1 ≤ w ∧ w ≤ (LoanDurationWeeks : ℤ) ∧
    (l.Schedule.getD (w - 1).toNat defaultScheduleEntry).IsPaid = false ∧
    w = l.findFirstUnpaidWeek ∧
    l2 = { l with
      Payments := l.Payments ++ [{ WeekNumber := w, Amount := a }]
      Schedule := markPaid l.Schedule (w - 1).toNat } := by
  simp only [Loan.MakePayment] at h
  split_ifs at h with h1 h2 h3 h4 h5 h6 <;> simp_all

theorem makePayment_ok_intro (l : Loan) (a : Money) (w : ℤ)
    (h1 : a.IsNegative = false) (h2 : a.Equals l.WeeklyPayment = true)
    (h3 : l.GetOutstanding.IsZero = false)
    (h4 : 1 ≤ w) (h5 : w ≤ (LoanDurationWeeks : ℤ))
    (h6 : (l.Schedule.getD (w - 1).toNat defaultScheduleEntry).IsPaid = false)
    (h7 : w = l.findFirstUnpaidWeek) :
    l.MakePayment a w
      = ({ l with
            Payments := l.Payments ++ [{ WeekNumber := w, Amount := a }]
            Schedule := markPaid l.Schedule (w - 1).toNat }, none) := by
  simp only [Loan.MakePayment]
  split_ifs with g1 g2 g3 g4 g5 g6 <;> simp_all <;> omega

theorem makePayment_cases (l : Loan) (a : Money) (w : ℤ) :
    ((l.MakePayment a w).2 = some .NegativeAmount ↔ a.IsNegative = true) ∧
    ((l.MakePayment a w).2 = some .InvalidPaymentAmount ↔
      a.IsNegative = false ∧ a.Equals l.WeeklyPayment = false) ∧
    ((l.MakePayment a w).2 = some .LoanFullyPaid ↔
      a.IsNegative = false ∧ a.Equals l.WeeklyPayment = true ∧
      l.GetOutstanding.IsZero = true) ∧
    ((l.MakePayment a w).2 = some .InvalidWeekNumber ↔
      a.IsNegative = false ∧ a.Equals l.WeeklyPayment = true ∧
      l.GetOutstanding.IsZero = false ∧ (w < 1 ∨ (LoanDurationWeeks : ℤ) < w)) ∧
    ((l.MakePayment a w).2 = some .WeekAlreadyPaid ↔
      a.IsNegative = false ∧ a.Equals l.WeeklyPayment = true ∧
      l.GetOutstanding.IsZero = false ∧ 1 ≤ w ∧ w ≤ (LoanDurationWeeks : ℤ) ∧
      (l.Schedule.getD (w - 1).toNat defaultScheduleEntry).IsPaid = true) ∧
    ((l.MakePayment a w).2 = some .PaymentOutOfSequence ↔
      a.IsNegative = false ∧ a.Equals l.WeeklyPayment = true ∧
      l.GetOutstanding.IsZero = false ∧ 1 ≤ w ∧ w ≤ (LoanDurationWeeks : ℤ) ∧
      (l.Schedule.getD (w - 1).toNat defaultScheduleEntry).IsPaid = false ∧
      w ≠ l.findFirstUnpaidWeek) ∧
    ((l.MakePayment a w).2 = none ↔
      a.IsNegative = false ∧ a.Equals l.WeeklyPayment = true ∧
      l.GetOutstanding.IsZero = false ∧ 1 ≤ w ∧ w ≤ (LoanDurationWeeks : ℤ) ∧
      (l.Schedule.getD (w - 1).toNat defaultScheduleEntry).IsPaid = false ∧
      w = l.findFirstUnpaidWeek) := by
  simp only [Loan.MakePayment]
  split_ifs with h1 h2 h3 h4 h5 h6 <;>
    simp_all <;> omega


/-! ### The reachability invariant -/

theorem markPaid_get (s : List ScheduleEntry) (idx i : ℕ) (h2 : i < s.length)
    (h : i < (markPaid s idx).length) :
    (markPaid s idx).get ⟨i, h⟩
      = if i = idx then { s.get ⟨i, h2⟩ with IsPaid := true } else s.get ⟨i, h2⟩ := by
  rw [← getD_of_lt (markPaid s idx) h defaultScheduleEntry, markPaid_getD,
    getD_of_lt s h2 defaultScheduleEntry]
  simp [h2]

theorem newLoan_inv (id borrowerID : String) (principal : Money) (rate : ℚ) :
    LoanInv (NewLoan id borrowerID principal rate) := by
  refine ⟨?_, ?_, ?_, ?_, ?_, ?_, ?_, ?_⟩
  · simp [NewLoan]
  · intro i h
    simp [NewLoan, List.get_eq_getElem, List.getElem_map, List.getElem_range]
  · intro e he
    simp only [NewLoan, List.mem_map] at he ⊢
    obtain ⟨i, _, rfl⟩ := he
    rfl
  · simp [NewLoan]
  · intro p hp
    simp [NewLoan] at hp
  · intro i h
    simp [NewLoan, List.get_eq_getElem, List.getElem_map]
  · simp [NewLoan]
  · simp only [NewLoan, Money.Multiply, Money.Add]
    rw [decimalDiv_one_term]
    norm_num [LoanDurationWeeks]
    ring

theorem makePayment_preserves_inv {l l2 : Loan} {a : Money} {w : ℤ}
    (hinv : LoanInv l) (h : l.MakePayment a w = (l2, none)) : LoanInv l2 := by
  obtain ⟨hneg, heq, hzero, hw1, hw2, hunpaid, hfirst, hl2⟩ := makePayment_ok_elim h
  have hfu := hinv.firstUnpaid
  have hne : l.Payments.length ≠ LoanDurationWeeks := by
    intro hcontra
    rw [hfu, if_pos hcontra] at hfirst
    omega
  have hwn : w = (l.Payments.length : ℤ) + 1 := by rw [hfirst, hfu, if_neg hne]
  have hlt : l.Payments.length < LoanDurationWeeks := lt_of_le_of_ne hinv.payLe hne
  have hidx : (w - 1).toNat = l.Payments.length := by omega
  have haw : a = l.WeeklyPayment := (Money.equals_iff _ _).mp heq
  subst hl2
  refine ⟨?_, ?_, ?_, ?_, ?_, ?_, ?_, ?_⟩
  · simpa [markPaid_length] using hinv.schedLen
  · intro i hi
    have hi2 : i < l.Schedule.length := by simpa [markPaid_length] using hi
    show ((markPaid l.Schedule (w - 1).toNat).get ⟨i, hi⟩).WeekNumber = (i : ℤ) + 1
    rw [markPaid_get l.Schedule (w - 1).toNat i hi2 hi]
    split_ifs <;> simpa using hinv.schedWeek i hi2
  · intro e he
    show e.Amount = l.WeeklyPayment
    obtain ⟨⟨i, hi⟩, rfl⟩ := List.mem_iff_get.mp he
    have hi2 : i < l.Schedule.length := by simpa [markPaid_length] using hi
    rw [markPaid_get l.Schedule (w - 1).toNat i hi2 hi]
    split_ifs <;> simpa using hinv.schedAmt _ (List.get_mem l.Schedule i hi2)
  · show (l.Payments ++ [({ WeekNumber := w, Amount := a } : Payment)]).map Payment.WeekNumber
      = (List.range (l.Payments ++ [({ WeekNumber := w, Amount := a } : Payment)]).length).map
          fun i : ℕ => (i : ℤ) + 1
    rw [List.map_append, hinv.payWeeks]
    simp only [List.length_append, List.length_singleton, List.range_succ, List.map_append]
    simp [hwn]
  · intro p hp
    show p.Amount = l.WeeklyPayment
    rcases List.mem_append.mp hp with hp | hp
    · exact hinv.payAmt p hp
    · simp at hp
      rw [hp, haw]
  · intro i hi
    have hi2 : i < l.Schedule.length := by simpa [markPaid_length] using hi
    show ((markPaid l.Schedule (w - 1).toNat).get ⟨i, hi⟩).IsPaid = true
      ↔ i < (l.Payments ++ [({ WeekNumber := w, Amount := a } : Payment)]).length
    rw [markPaid_get l.Schedule (w - 1).toNat i hi2 hi]
    simp only [List.length_append, List.length_singleton]
    split_ifs with hie
    · simp
      omega
    · rw [hinv.paidIff i hi2]
      omega
  · show (l.Payments ++ [({ WeekNumber := w, Amount := a } : Payment)]).length ≤ LoanDurationWeeks
    simp only [List.length_append, List.length_singleton]
    omega
  · exact hinv.total

theorem setCurrentWeek_preserves_inv {l : Loan} (hinv : LoanInv l) (week : ℤ) :
    LoanInv (l.SetCurrentWeek week) := by
  unfold Loan.SetCurrentWeek
  split_ifs
  · exact ⟨hinv.schedLen, hinv.schedWeek, hinv.schedAmt, hinv.payWeeks, hinv.payAmt,
      hinv.paidIff, hinv.payLe, hinv.total⟩
  · exact hinv

theorem reachable_inv {l : Loan} (h : Reachable l) : LoanInv l := by
  induction h with
  | construct id borrowerID principal rate => exact newLoan_inv id borrowerID principal rate
  | pay amount weekNumber hr hok ih => exact makePayment_preserves_inv ih hok
  | setWeek week hr ih => exact setCurrentWeek_preserves_inv ih week


/-! ### Delinquency: the fold of loan.go versus the maximum paid week -/

theorem lastPaid_foldl_eq_max (s : List ScheduleEntry) (acc : ℤ) :
    s.foldl (fun lastPaidWeek entry =>
        if entry.IsPaid ∧ lastPaidWeek < entry.WeekNumber then entry.WeekNumber
        else lastPaidWeek) acc
      = ((s.filter fun e => e.IsPaid).map ScheduleEntry.WeekNumber).foldl max acc := by
  induction s generalizing acc with
  | nil => rfl
  | cons e rest ih =>
    by_cases hp : e.IsPaid
    · rw [List.foldl_cons]
      have hstep : (if e.IsPaid ∧ acc < e.WeekNumber then e.WeekNumber else acc)
          = max acc e.WeekNumber := by
        split_ifs with hc
        · exact (max_eq_right (le_of_lt hc.2)).symm
        · push_neg at hc
          exact (max_eq_left (hc hp)).symm
      rw [hstep, ih]
      simp [List.filter_cons, hp]
    · rw [List.foldl_cons]
      have hstep : (if e.IsPaid ∧ acc < e.WeekNumber then e.WeekNumber else acc) = acc := by
        simp [hp]
      rw [hstep, ih]
      simp [List.filter_cons, hp]

theorem foldl_max_eq_maxD (ws : List ℤ) (h : ∀ x ∈ ws, 0 ≤ x) :
    ws.foldl max 0 = ws.max?.getD 0 := by
  cases ws with
  | nil => rfl
  | cons w ws =>
    rw [List.foldl_cons, max_eq_right (h w (List.mem_cons_self _ _))]
    rfl

theorem isDelinquent_iff_maxPaidWeek (l : Loan)
    (hpos : ∀ e ∈ l.Schedule, e.IsPaid = true → 0 ≤ e.WeekNumber) :
    l.IsDelinquent = true ↔ DelinquencyThreshold ≤ l.CurrentWeek - maxPaidWeek l := by
  unfold Loan.IsDelinquent maxPaidWeek
  rw [lastPaid_foldl_eq_max, foldl_max_eq_maxD]
  · simp
  · intro x hx
    simp only [List.mem_map, List.mem_filter] at hx
    obtain ⟨e, ⟨he, hpe⟩, rfl⟩ := hx
    exact hpos e he hpe

theorem newLoan_not_delinquent (id borrowerID : String) (principal : Money) (rate : ℚ) :
    (NewLoan id borrowerID principal rate).IsDelinquent = false := by
  unfold Loan.IsDelinquent
  rw [lastPaid_foldl_eq_max]
  have hfil : ((NewLoan id borrowerID principal rate).Schedule.filter fun e => e.IsPaid) = [] := by
    rw [List.filter_eq_nil_iff]
    intro e he
    simp only [NewLoan, List.mem_map] at he
    obtain ⟨i, _, rfl⟩ := he
    simp
  rw [hfil]
  simp [NewLoan, DelinquencyThreshold]

/-! ### Registry: association-list map semantics -/

theorem lookup_storeLoan (ls : List (String × Loan)) (id k : String) (loan : Loan) :
    lookupLoan (storeLoan ls id loan) k
      = if k = id then some loan else lookupLoan ls k := by
  induction ls with
  | nil =>
    simp only [storeLoan, lookupLoan]
    by_cases h : id = k
    · subst h
      simp
    · have h2 : ¬ (k = id) := fun hh => h hh.symm
      simp [h, h2]
  | cons kv rest ih =>
    obtain ⟨k1, v1⟩ := kv
    simp only [storeLoan]
    by_cases h1 : k1 = id
    · subst h1
      simp only [if_pos rfl, lookupLoan]
      by_cases h : k1 = k
      · subst h
        simp
      · have h2 : ¬ (k = k1) := fun hh => h hh.symm
        simp [h, h2]
    · rw [if_neg h1]
      by_cases h : k1 = k
      · subst h
        have h2 : ¬ (k1 = id) := h1
        have h3 : ¬ (k1 = id) → lookupLoan ((k1, v1) :: rest) k1 = some v1 := by
          intro _
          simp [lookupLoan]
        simp [lookupLoan, fun hh : k1 = id => h1 hh, h3 h2]
      · simp [lookupLoan, h, ih]

theorem lookupLoan_mem {ls : List (String × Loan)} {k : String} {v : Loan}
    (h : lookupLoan ls k = some v) : (k, v) ∈ ls := by
  induction ls with
  | nil => simp [lookupLoan] at h
  | cons kv rest ih =>
    obtain ⟨k1, v1⟩ := kv
    simp only [lookupLoan] at h
    by_cases h1 : k1 = k
    · rw [if_pos h1] at h
      obtain rfl := Option.some_injective _ h
      subst h1
      exact List.mem_cons_self _ _
    · rw [if_neg h1] at h
      exact List.mem_cons_of_mem _ (ih h)

/-! ### The next-due week can only fail the amount and balance checks -/

theorem makePayment_at_firstUnpaid {l : Loan} (hinv : LoanInv l) (a : Money)
    (hnz : l.findFirstUnpaidWeek ≠ 0) :
    (l.MakePayment a l.findFirstUnpaidWeek).2 = none ∨
    (l.MakePayment a l.findFirstUnpaidWeek).2 = some .NegativeAmount ∨
    (l.MakePayment a l.findFirstUnpaidWeek).2 = some .InvalidPaymentAmount ∨
    (l.MakePayment a l.findFirstUnpaidWeek).2 = some .LoanFullyPaid := by
  have hfu := hinv.firstUnpaid
  have hne : l.Payments.length ≠ LoanDurationWeeks := by
    intro hc
    rw [hfu, if_pos hc] at hnz
    exact hnz rfl
  have hw : l.findFirstUnpaidWeek = (l.Payments.length : ℤ) + 1 := by rw [hfu, if_neg hne]
  have hlt : l.Payments.length < LoanDurationWeeks := lt_of_le_of_ne hinv.payLe hne
  by_cases h1 : a.IsNegative = true
  · right; left
    simp [Loan.MakePayment, h1]
  have h1f : a.IsNegative = false := by simpa using h1
  by_cases h2 : a.Equals l.WeeklyPayment = true
  case neg =>
    right; right; left
    have h2f : a.Equals l.WeeklyPayment = false := by simpa using h2
    simp only [Loan.MakePayment]
    rw [if_neg (by simp [h1f]), if_pos (by simp [h2f])]
  by_cases h3 : l.GetOutstanding.IsZero = true
  case pos =>
    right; right; right
    simp only [Loan.MakePayment]
    rw [if_neg (by simp [h1f]), if_neg (by simp [h2]), if_pos h3]
  have h3f : l.GetOutstanding.IsZero = false := by simpa using h3
  left
  have hlen : l.Payments.length < l.Schedule.length := by
    rw [hinv.schedLen]
    exact hlt
  have hidx : ((l.findFirstUnpaidWeek - 1).toNat) = l.Payments.length := by omega
  have h6 : (l.Schedule.getD (l.findFirstUnpaidWeek - 1).toNat defaultScheduleEntry).IsPaid
      = false := by
    rw [hidx, getD_of_lt l.Schedule hlen defaultScheduleEntry]
    have hiff := hinv.paidIff l.Payments.length hlen
    rcases hb : (l.Schedule.get ⟨l.Payments.length, hlen⟩).IsPaid
    · rfl
    · exact absurd (hiff.mp hb) (lt_irrefl _)
  rw [makePayment_ok_intro l a l.findFirstUnpaidWeek h1f h2 h3f
    (by omega) (by omega) h6 rfl]


theorem Money.eq_of_amount {m m2 : Money} (h : m.amount = m2.amount) : m = m2 := by
  cases m; cases m2; simpa using h

/-! ### The claims -/

/-- C1: for every loan state (with the full-term schedule Go's indexing
assumes) and every `(amount, weekNumber)` input, `MakePayment` applies the
six checks in the fixed order negative-amount, amount-not-equal-weekly,
outstanding-already-zero, week-out-of-range, week-already-paid,
week-not-first-unpaid; it returns the error of the first failing check and
succeeds iff all six pass. -/
theorem claim1_makePayment_validation_order (l : Loan) (a : Money) (w : ℤ) :
    ((l.MakePayment a w).2 = some .NegativeAmount ↔ a.IsNegative = true) ∧
    ((l.MakePayment a w).2 = some .InvalidPaymentAmount ↔
      a.IsNegative = false ∧ a.Equals l.WeeklyPayment = false) ∧
    ((l.MakePayment a w).2 = some .LoanFullyPaid ↔
      a.IsNegative = false ∧ a.Equals l.WeeklyPayment = true ∧
      l.GetOutstanding.IsZero = true) ∧
    ((l.MakePayment a w).2 = some .InvalidWeekNumber ↔
      a.IsNegative = false ∧ a.Equals l.WeeklyPayment = true ∧
      l.GetOutstanding.IsZero = false ∧ (w < 1 ∨ (LoanDurationWeeks : ℤ) < w)) ∧
    ((l.MakePayment a w).2 = some .WeekAlreadyPaid ↔
      a.IsNegative = false ∧ a.Equals l.WeeklyPayment = true ∧
      l.GetOutstanding.IsZero = false ∧ 1 ≤ w ∧ w ≤ (LoanDurationWeeks : ℤ) ∧
      (l.Schedule.getD (w - 1).toNat defaultScheduleEntry).IsPaid = true) ∧
    ((l.MakePayment a w).2 = some .PaymentOutOfSequence ↔
      a.IsNegative = false ∧ a.Equals l.WeeklyPayment = true ∧
      l.GetOutstanding.IsZero = false ∧ 1 ≤ w ∧ w ≤ (LoanDurationWeeks : ℤ) ∧
      (l.Schedule.getD (w - 1).toNat defaultScheduleEntry).IsPaid = false ∧
      w ≠ l.findFirstUnpaidWeek) ∧
    ((l.MakePayment a w).2 = none ↔
      a.IsNegative = false ∧ a.Equals l.WeeklyPayment = true ∧
      l.GetOutstanding.IsZero = false ∧ 1 ≤ w ∧ w ≤ (LoanDurationWeeks : ℤ) ∧
      (l.Schedule.getD (w - 1).toNat defaultScheduleEntry).IsPaid = false ∧
      w = l.findFirstUnpaidWeek) :=
  makePayment_cases l a w

/-- C2: when `MakePayment` returns an error the loan state is unchanged;
on success exactly one payment record is appended and exactly the schedule
entry of that week flips `IsPaid` from `false` to `true`, all other fields
and entries untouched. -/
theorem claim2_makePayment_atomic (l : Loan) (amount : Money) (weekNumber : ℤ)
    (hlen : l.Schedule.length = LoanDurationWeeks) :
    (∀ l2 e, l.MakePayment amount weekNumber = (l2, some e) → l2 = l) ∧
    (∀ l2, l.MakePayment amount weekNumber = (l2, none) →
      l2.Payments = l.Payments ++ [({ WeekNumber := weekNumber, Amount := amount } : Payment)] ∧
      l2.Schedule.length = l.Schedule.length ∧
      (l.Schedule.getD (weekNumber - 1).toNat defaultScheduleEntry).IsPaid = false ∧
      l2.Schedule.getD (weekNumber - 1).toNat defaultScheduleEntry
        = { l.Schedule.getD (weekNumber - 1).toNat defaultScheduleEntry with IsPaid := true } ∧
      (∀ j, j ≠ (weekNumber - 1).toNat →
        l2.Schedule.getD j defaultScheduleEntry = l.Schedule.getD j defaultScheduleEntry) ∧
      l2.ID = l.ID ∧ l2.BorrowerID = l.BorrowerID ∧ l2.Principal = l.Principal ∧
      l2.InterestRate = l.InterestRate ∧ l2.TotalAmount = l.TotalAmount ∧
      l2.WeeklyPayment = l.WeeklyPayment ∧ l2.CurrentWeek = l.CurrentWeek) := by
  constructor
  · intro l2 e h
    exact makePayment_fst_of_error h
  · intro l2 h
    obtain ⟨hneg, heq, hzero, hw1, hw2, hunpaid, hfirst, hl2⟩ := makePayment_ok_elim h
    have hidxlt : (weekNumber - 1).toNat < l.Schedule.length := by
      rw [hlen]
      omega
    subst hl2
    refine ⟨rfl, ?_, hunpaid, ?_, ?_, rfl, rfl, rfl, rfl, rfl, rfl, rfl⟩
    · simpa using markPaid_length l.Schedule (weekNumber - 1).toNat
    · show (markPaid l.Schedule (weekNumber - 1).toNat).getD (weekNumber - 1).toNat
          defaultScheduleEntry = _
      rw [markPaid_getD, if_pos ⟨rfl, hidxlt⟩]
    · intro j hj
      show (markPaid l.Schedule (weekNumber - 1).toNat).getD j defaultScheduleEntry = _
      rw [markPaid_getD, if_neg fun hc => hj hc.1]


theorem getD_map_range (n : ℕ) (f : ℕ → ScheduleEntry) (i : ℕ) (d : ScheduleEntry)
    (h : i < n) : ((List.range n).map f).getD i d = f i := by
  rw [List.getD_eq_getElem?_getD, List.getElem?_map, List.getElem?_range h]
  rfl

theorem demoLoan_inv : LoanInv demoLoan :=
  newLoan_inv "L1" "B1" (NewMoney 5000000) (1/10)

theorem demoLoan_weeklyPayment : demoLoan.WeeklyPayment = NewMoney 110000 := by
  apply Money.eq_of_amount
  simp only [demoLoan, NewLoan, Money.Multiply, Money.Add, NewMoney]
  rw [decimalDiv_one_term]
  norm_num

theorem demoLoan_weeklyPayment_ne_zero : demoLoan.WeeklyPayment.amount ≠ 0 := by
  rw [demoLoan_weeklyPayment]
  simp only [NewMoney]
  norm_num

theorem demoLoan_schedLen : demoLoan.Schedule.length = LoanDurationWeeks := by
  simp [demoLoan, NewLoan]

theorem demoLoan_outstanding_ne_zero : demoLoan.GetOutstanding.IsZero = false := by
  rw [show demoLoan.GetOutstanding.IsZero
      = decide (demoLoan.GetOutstanding.amount = 0) from rfl]
  rw [demoLoan_inv.getOutstanding_eq]
  simp only [decide_eq_false_iff_not]
  intro hcontra
  rcases mul_eq_zero.mp hcontra with hcase | hcase
  · have : (demoLoan.Payments.length : ℚ) = (LoanDurationWeeks : ℚ) := by linarith
    have h0 : demoLoan.Payments.length = 0 := by simp [demoLoan, NewLoan]
    rw [h0] at this
    norm_num [LoanDurationWeeks] at this
  · exact demoLoan_weeklyPayment_ne_zero hcase

theorem demoLoan_firstUnpaid : demoLoan.findFirstUnpaidWeek = 1 := by
  rw [demoLoan_inv.firstUnpaid]
  have h0 : demoLoan.Payments.length = 0 := by simp [demoLoan, NewLoan]
  rw [h0]
  norm_num [LoanDurationWeeks]

theorem demoLoan_pay1 :
    demoLoan.MakePayment (NewMoney 110000) 1
      = ({ demoLoan with
            Payments := demoLoan.Payments
              ++ [({ WeekNumber := 1, Amount := NewMoney 110000 } : Payment)]
            Schedule := markPaid demoLoan.Schedule ((1 : ℤ) - 1).toNat }, none) := by
  apply makePayment_ok_intro
  · simp only [Money.IsNegative, NewMoney, decide_eq_false_iff_not]
    push_cast
    norm_num
  · rw [Money.equals_iff, demoLoan_weeklyPayment]
  · exact demoLoan_outstanding_ne_zero
  · norm_num
  · norm_num [LoanDurationWeeks]
  · rw [show ((1 : ℤ) - 1).toNat = 0 from by decide]
    rw [show demoLoan.Schedule
        = (List.range LoanDurationWeeks).map (fun i =>
            { WeekNumber := (i : ℤ) + 1,
              Amount := (((NewMoney 5000000).Add
                ((NewMoney 5000000).Multiply (1/10))).Multiply
                  (decimalDiv 1 (LoanDurationWeeks : ℚ))),
              IsPaid := false }) from rfl]
    rw [getD_map_range LoanDurationWeeks _ 0 _ (by norm_num [LoanDurationWeeks])]
  · rw [demoLoan_firstUnpaid]

/-- Witness for C2: on the concrete 5,000,000-at-10% loan the first weekly
payment succeeds and appends exactly the week-1 payment record. -/
theorem claim2_witness :
    (demoLoan.MakePayment (NewMoney 110000) 1).1.Payments
      = demoLoan.Payments
        ++ [({ WeekNumber := 1, Amount := NewMoney 110000 } : Payment)] :=
  ((claim2_makePayment_atomic demoLoan (NewMoney 110000) 1 demoLoan_schedLen).2
    (demoLoan.MakePayment (NewMoney 110000) 1).1
    (by rw [demoLoan_pay1])).1


/-- C3: `IsDelinquent` is true iff the current week is at least the
threshold (2) past the spec's `lastPaidWeek` (the maximum paid week number,
`0` if none); in particular a fresh loan at week 1 is not delinquent.
The hypothesis — paid entries carry nonnegative week numbers — holds for
every schedule the code ever builds. -/
theorem claim3_isDelinquent (l : Loan)
    (hpos : ∀ e ∈ l.Schedule, e.IsPaid = true → 0 ≤ e.WeekNumber) :
    (l.IsDelinquent = true ↔ DelinquencyThreshold ≤ l.CurrentWeek - maxPaidWeek l) ∧
    (∀ id borrowerID principal rate,
      (NewLoan id borrowerID principal rate).IsDelinquent = false) :=
  ⟨isDelinquent_iff_maxPaidWeek l hpos, fun id borrowerID principal rate =>
    newLoan_not_delinquent id borrowerID principal rate⟩

/-- Witness for C3 at the concrete example loan. -/
theorem claim3_witness :
    demoLoan.IsDelinquent = true
      ↔ DelinquencyThreshold ≤ demoLoan.CurrentWeek - maxPaidWeek demoLoan :=
  (claim3_isDelinquent demoLoan (by
    intro e he
    simp only [demoLoan, NewLoan, List.mem_map] at he
    obtain ⟨i, _, rfl⟩ := he
    intro hcontra
    simp at hcontra)).1

/-- C4: the outstanding balance is always the total amount minus the sum of
all recorded payment amounts; on a fresh loan it equals the total amount. -/
theorem claim4_outstanding (l : Loan) :
    (l.GetOutstanding).amount
      = l.TotalAmount.amount - (l.Payments.map fun p => p.Amount.amount).sum ∧
    (∀ id borrowerID principal rate,
      (NewLoan id borrowerID principal rate).GetOutstanding
        = (NewLoan id borrowerID principal rate).TotalAmount) := by
  refine ⟨getOutstanding_amount l, ?_⟩
  intro id borrowerID principal rate
  apply Money.eq_of_amount
  rw [getOutstanding_amount]
  simp [NewLoan]

/-- C5: the weekly payment is the exact quotient of the total amount by the
50-week term, `weeklyPayment × 50 = totalAmount` holds exactly, and
principal 5,000,000 at rate 0.10 gives weekly payment 110,000. -/
theorem claim5_weeklyPayment_exact (id borrowerID : String) (principal : Money)
    (rate : ℚ) :
    (NewLoan id borrowerID principal rate).WeeklyPayment.amount
        = (NewLoan id borrowerID principal rate).TotalAmount.amount / 50 ∧
    (NewLoan id borrowerID principal rate).WeeklyPayment.amount * 50
        = (NewLoan id borrowerID principal rate).TotalAmount.amount ∧
    (NewLoan "L1" "B1" (NewMoney 5000000) (1/10)).WeeklyPayment = NewMoney 110000 := by
  refine ⟨?_, ?_, demoLoan_weeklyPayment⟩
  · simp only [NewLoan, Money.Multiply]
    rw [decimalDiv_one_term]
    ring
  · simp only [NewLoan, Money.Multiply]
    rw [decimalDiv_one_term]
    ring

/-- C6 counterexample: a zero-principal construction is a reachable state
whose `IsClosed` is `true` with zero payments recorded, so
`IsClosed = (payments.length = 50)` fails as stated. -/
theorem claim6_counterexample :
    Reachable (NewLoan "Z" "B" (NewMoney 0) (1/10)) ∧
    (NewLoan "Z" "B" (NewMoney 0) (1/10)).IsClosed = true ∧
    (NewLoan "Z" "B" (NewMoney 0) (1/10)).Payments.length ≠ LoanDurationWeeks := by
  refine ⟨Reachable.construct _ _ _ _, ?_, ?_⟩
  · show (NewLoan "Z" "B" (NewMoney 0) (1/10)).GetOutstanding.IsZero = true
    simp only [Money.IsZero, decide_eq_true_eq]
    rw [getOutstanding_amount]
    simp [NewLoan, Money.Add, Money.Multiply, NewMoney]
  · simp [NewLoan, LoanDurationWeeks]

/-- C6 amended: `IsClosed` returns `GetOutstanding().IsZero()` always, and
for every reachable loan whose weekly payment is nonzero (any nonzero total
amount, e.g. a positive principal) it equals `payments.length = 50`. -/
theorem claim6_isClosed_amended (l : Loan) (hr : Reachable l)
    (hwp : l.WeeklyPayment.amount ≠ 0) :
    l.IsClosed = l.GetOutstanding.IsZero ∧
    (l.IsClosed = true ↔ l.Payments.length = LoanDurationWeeks) := by
  refine ⟨rfl, ?_⟩
  rw [show l.IsClosed = l.GetOutstanding.IsZero from rfl, (reachable_inv hr).outstanding_isZero_iff]
  exact or_iff_right hwp

/-- Witness for the amended C6 at the concrete example loan. -/
theorem claim6_witness :
    demoLoan.IsClosed = demoLoan.GetOutstanding.IsZero ∧
    (demoLoan.IsClosed = true ↔ demoLoan.Payments.length = LoanDurationWeeks) :=
  claim6_isClosed_amended demoLoan (Reachable.construct _ _ _ _)
    demoLoan_weeklyPayment_ne_zero


theorem LoanInv.payWeek {l : Loan} (hinv : LoanInv l) (i : ℕ)
    (h : i < l.Payments.length) :
    (l.Payments.get ⟨i, h⟩).WeekNumber = (i : ℤ) + 1 := by
  have hget := List.get_of_eq hinv.payWeeks ⟨i, by simpa using h⟩
  simpa only [List.get_eq_getElem, List.getElem_map, List.getElem_range, Fin.coe_cast]
    using hget

/-- C7: in every reachable loan state the payment week numbers are exactly
the gap-free prefix `1..n` (in order), at most the 50-week term, and a
schedule entry is paid iff a payment with its week number exists. -/
theorem claim7_payments_gap_free (l : Loan) (hr : Reachable l) :
    l.Payments.map Payment.WeekNumber
      = (List.range l.Payments.length).map (fun i : ℕ => (i : ℤ) + 1) ∧
    l.Payments.length ≤ LoanDurationWeeks ∧
    (∀ i (h : i < l.Schedule.length),
      ((l.Schedule.get ⟨i, h⟩).IsPaid = true
        ↔ ∃ p ∈ l.Payments, p.WeekNumber = (i : ℤ) + 1)) := by
  have hinv := reachable_inv hr
  refine ⟨hinv.payWeeks, hinv.payLe, ?_⟩
  intro i h
  rw [hinv.paidIff i h]
  constructor
  · intro hlt
    exact ⟨l.Payments.get ⟨i, hlt⟩, List.get_mem l.Payments i hlt, hinv.payWeek i hlt⟩
  · rintro ⟨p, hp, hpw⟩
    obtain ⟨⟨j, hj⟩, rfl⟩ := List.mem_iff_get.mp hp
    have hjw := hinv.payWeek j hj
    rw [hjw] at hpw
    omega

/-- Witness for C7 at the concrete example loan. -/
theorem claim7_witness :
    demoLoan.Payments.map Payment.WeekNumber
      = (List.range demoLoan.Payments.length).map (fun i : ℕ => (i : ℤ) + 1) :=
  (claim7_payments_gap_free demoLoan (Reachable.construct _ _ _ _)).1

/-- C8: in every reachable state `GetNextDueWeek` is the lowest unpaid week
number (`0` iff everything is paid), it is `1` on a fresh loan, and a
successful payment moves it up by exactly one (to the `0` sentinel once all
50 weeks are paid). -/
theorem claim8_nextDueWeek (l : Loan) (hr : Reachable l) :
    (l.GetNextDueWeek = 0 ↔ ∀ e ∈ l.Schedule, e.IsPaid = true) ∧
    (∀ e ∈ l.Schedule, e.IsPaid = false → l.GetNextDueWeek ≤ e.WeekNumber) ∧
    (l.GetNextDueWeek ≠ 0 →
      ∃ e ∈ l.Schedule, e.IsPaid = false ∧ e.WeekNumber = l.GetNextDueWeek) ∧
    (∀ id borrowerID principal rate,
      (NewLoan id borrowerID principal rate).GetNextDueWeek = 1) ∧
    (∀ a w l2, l.MakePayment a w = (l2, none) →
      l2.GetNextDueWeek
        = if l2.Payments.length = LoanDurationWeeks then 0
          else l.GetNextDueWeek + 1) := by
  have hinv := reachable_inv hr
  simp only [Loan.GetNextDueWeek]
  have hfu := hinv.firstUnpaid
  refine ⟨⟨?_, ?_⟩, ?_, ?_, ?_, ?_⟩
  · intro h0 e he
    obtain ⟨⟨i, hi⟩, rfl⟩ := List.mem_iff_get.mp he
    rw [hinv.paidIff i hi]
    by_cases hc : l.Payments.length = LoanDurationWeeks
    · have := hinv.schedLen
      omega
    · rw [hfu, if_neg hc] at h0
      omega
  · intro hall
    by_cases hc : l.Payments.length = LoanDurationWeeks
    · rw [hfu, if_pos hc]
    · exfalso
      have hn : l.Payments.length < l.Schedule.length := by
        rw [hinv.schedLen]
        exact lt_of_le_of_ne hinv.payLe hc
      have hthis := hall _ (List.get_mem l.Schedule l.Payments.length hn)
      rw [hinv.paidIff _ hn] at hthis
      omega
  · intro e he hef
    obtain ⟨⟨i, hi⟩, rfl⟩ := List.mem_iff_get.mp he
    rw [hinv.schedWeek i hi]
    have hpi := hinv.paidIff i hi
    have hni : ¬ i < l.Payments.length := by
      intro hc
      have h2 := hpi.mpr hc
      rw [hef] at h2
      simp at h2
    by_cases hc : l.Payments.length = LoanDurationWeeks
    · exfalso
      have := hinv.schedLen
      omega
    · rw [hfu, if_neg hc]
      omega
  · intro hne0
    have hc : l.Payments.length ≠ LoanDurationWeeks := by
      intro hcc
      rw [hfu, if_pos hcc] at hne0
      exact hne0 rfl
    have hn : l.Payments.length < l.Schedule.length := by
      rw [hinv.schedLen]
      exact lt_of_le_of_ne hinv.payLe hc
    refine ⟨l.Schedule.get ⟨l.Payments.length, hn⟩, List.get_mem _ _ _, ?_, ?_⟩
    · have hpi := hinv.paidIff _ hn
      rcases hb : (l.Schedule.get ⟨l.Payments.length, hn⟩).IsPaid
      · rfl
      · exact absurd (hpi.mp hb) (lt_irrefl _)
    · rw [hinv.schedWeek _ hn, hfu, if_neg hc]
  · intro id borrowerID principal rate
    rw [(newLoan_inv id borrowerID principal rate).firstUnpaid]
    have h0 : (NewLoan id borrowerID principal rate).Payments.length = 0 := by
      simp [NewLoan]
    rw [h0]
    norm_num [LoanDurationWeeks]
  · intro a w l2 hok
    have hinv2 := makePayment_preserves_inv hinv hok
    obtain ⟨_, _, _, hw1, hw2, _, hfirst, hl2⟩ := makePayment_ok_elim hok
    have hne : l.Payments.length ≠ LoanDurationWeeks := by
      intro hc
      rw [hfu, if_pos hc] at hfirst
      omega
    have hlen2 : l2.Payments.length = l.Payments.length + 1 := by
      rw [hl2]
      simp
    rw [hinv2.firstUnpaid, hlen2, hfu, if_neg hne]
    split_ifs with hc
    · rfl
    · push_cast
      ring

/-- Witness for C8: a fresh loan's next due week is 1. -/
theorem claim8_witness : demoLoan.GetNextDueWeek = 1 :=
  (claim8_nextDueWeek demoLoan (Reachable.construct _ _ _ _)).2.2.2.1
    "L1" "B1" (NewMoney 5000000) (1/10)

/-- C9: `CreateLoan` with an existing identifier fails with the duplicate
error and leaves the registry untouched; with a fresh identifier it inserts
a loan built by `NewLoan` at the fixed 10% rate (and the fixed 50-week
term inside `NewLoan`) and returns it. -/
theorem claim9_createLoan (s : BillingService) (loanID borrowerID : String)
    (principal : Money) :
    (∀ loan0, lookupLoan s.loans loanID = some loan0 →
      s.CreateLoan loanID borrowerID principal = (s, .error .DuplicateLoan)) ∧
    (lookupLoan s.loans loanID = none →
      (s.CreateLoan loanID borrowerID principal).2
          = .ok (NewLoan loanID borrowerID principal (1/10)) ∧
      (∀ k, lookupLoan (s.CreateLoan loanID borrowerID principal).1.loans k
        = if k = loanID then some (NewLoan loanID borrowerID principal (1/10))
          else lookupLoan s.loans k)) := by
  constructor
  · intro loan0 h
    simp only [BillingService.CreateLoan, h]
  · intro h
    simp only [BillingService.CreateLoan, h]
    exact ⟨by trivial, fun k => lookup_storeLoan s.loans loanID k _⟩

/-- Witness for C9: creating a loan in the empty registry returns it. -/
theorem claim9_witness :
    ((BillingService.mk []).CreateLoan "L9" "B9" (NewMoney 100)).2
      = .ok (NewLoan "L9" "B9" (NewMoney 100) (1/10)) :=
  ((claim9_createLoan ⟨[]⟩ "L9" "B9" (NewMoney 100)).2 rfl).1

/-- C10: when every registered loan is a reachable ledger state,
`MakeNextPayment` can only succeed or fail with loan-not-found,
fully-paid, negative-amount or wrong-amount; it can never report
`WeekAlreadyPaid`, `PaymentOutOfSequence` or `InvalidWeekNumber`. -/
theorem claim10_makeNextPayment_errors (s : BillingService) (loanID : String)
    (amount : Money) (hws : ∀ p ∈ s.loans, Reachable p.2) :
    ((s.MakeNextPayment loanID amount).2 = none ∨
     (s.MakeNextPayment loanID amount).2 = some .LoanNotFound ∨
     (s.MakeNextPayment loanID amount).2 = some (.PaymentFailed .LoanFullyPaid) ∨
     (s.MakeNextPayment loanID amount).2 = some (.PaymentFailed .NegativeAmount) ∨
     (s.MakeNextPayment loanID amount).2 = some (.PaymentFailed .InvalidPaymentAmount)) ∧
    (s.MakeNextPayment loanID amount).2 ≠ some (.PaymentFailed .WeekAlreadyPaid) ∧
    (s.MakeNextPayment loanID amount).2 ≠ some (.PaymentFailed .PaymentOutOfSequence) ∧
    (s.MakeNextPayment loanID amount).2 ≠ some (.PaymentFailed .InvalidWeekNumber) := by
  rcases hlk : lookupLoan s.loans loanID with _ | loan
  · simp only [BillingService.MakeNextPayment, hlk]
    simp
  · have hr : Reachable loan := hws (loanID, loan) (lookupLoan_mem hlk)
    have hinv := reachable_inv hr
    simp only [BillingService.MakeNextPayment, hlk, Loan.GetNextDueWeek]
    by_cases h0 : loan.findFirstUnpaidWeek = 0
    · rw [if_pos h0]
      simp
    · rw [if_neg h0]
      have hd := makePayment_at_firstUnpaid hinv amount h0
      rcases hmp : loan.MakePayment amount loan.findFirstUnpaidWeek with ⟨l2, o⟩
      rw [hmp] at hd
      simp only at hd
      rcases o with _ | e
      · simp
      · rcases hd with hd | hd | hd | hd <;> simp_all


/-- Witness for C10 on a registry holding one fresh loan. -/
theorem claim10_witness :
    (((BillingService.mk [("L1", demoLoan)]).MakeNextPayment "L1"
        (NewMoney 110000)).2 = none ∨
     ((BillingService.mk [("L1", demoLoan)]).MakeNextPayment "L1"
        (NewMoney 110000)).2 = some .LoanNotFound ∨
     ((BillingService.mk [("L1", demoLoan)]).MakeNextPayment "L1"
        (NewMoney 110000)).2 = some (.PaymentFailed .LoanFullyPaid) ∨
     ((BillingService.mk [("L1", demoLoan)]).MakeNextPayment "L1"
        (NewMoney 110000)).2 = some (.PaymentFailed .NegativeAmount) ∨
     ((BillingService.mk [("L1", demoLoan)]).MakeNextPayment "L1"
        (NewMoney 110000)).2 = some (.PaymentFailed .InvalidPaymentAmount)) ∧
    ((BillingService.mk [("L1", demoLoan)]).MakeNextPayment "L1"
        (NewMoney 110000)).2 ≠ some (.PaymentFailed .WeekAlreadyPaid) ∧
    ((BillingService.mk [("L1", demoLoan)]).MakeNextPayment "L1"
        (NewMoney 110000)).2 ≠ some (.PaymentFailed .PaymentOutOfSequence) ∧
    ((BillingService.mk [("L1", demoLoan)]).MakeNextPayment "L1"
        (NewMoney 110000)).2 ≠ some (.PaymentFailed .InvalidWeekNumber) :=
  claim10_makeNextPayment_errors ⟨[("L1", demoLoan)]⟩ "L1" (NewMoney 110000) (by
    intro p hp
    simp only [List.mem_singleton] at hp
    subst hp
    exact Reachable.construct "L1" "B1" (NewMoney 5000000) (1/10))

end Billing
